import Mathlib

/-!
Verification of the MCTS planner of this repository (`Assgn3/assignment/mcts.py`)
and of the pure-exploration bandit baseline
(`Assgn2/Assignement/src/algorithms/exploration_only.py`).

The Python source is shallowly embedded as pure Lean functions:

* The environment collaborator (`gridworld.py`, external to the core per spec §6)
  is a record of functions `MDP`; its stochastic `sample_next_state_and_reward`
  is modelled by explicit threading of a random-source state of type `R`.
* `random.Random` (and `np.random`) are modelled by `Rand`: a deterministic
  next-draw function on a seed/state type `R`.  `Random.choice` on a nonempty
  list picks the element at index `draw % length`, which covers any concrete
  generator while guaranteeing membership in the list, and keeps the whole
  development deterministic in the seed, exactly like the Python generator.
* Python floats are modelled by `ℚ` for rewards/returns and by `ℝ` for the
  UCT score (which uses `sqrt` and `log`).  Because a real-valued comparison is
  not executable, the search combinators take the scoring function used by
  `_select_uct` as an explicit parameter `score`; `mctsScore` instantiates it
  with the genuine UCT formula `uctScore`, giving the planner of the source.
* The in-place mutation of `Node` objects along the selection path (Python's
  backpropagation loop over `path`) is realised by rebuilding the root-to-
  frontier spine on the way out of the recursion in `simulate`: each node on
  the path gets `visits + 1` and `value_sum + value` exactly once, as in the
  source.  The `parent` back-reference of the Python `Node` is omitted: the
  algorithm never reads it (spec §9 sanctions the omission).
-/

namespace RLPlanner

/-- Random source model: one deterministic draw of a natural number together
with the successor generator state.  Stands for `random.Random` / `np.random`,
threaded explicitly. -/
structure Rand (R : Type) where
  next : R → ℕ × R

/-- `rng.choice(seq)` for a nonempty `seq`: returns a member of the list,
selected by the next draw, plus the advanced generator state. -/
def Rand.choice {R A : Type} (rand : Rand R) (l : List A) (h : l ≠ []) (r : R) :
    A × R :=
  let (n, r') := rand.next r
  (l.get ⟨n % l.length, Nat.mod_lt n (List.length_pos.mpr h)⟩, r')

/-- Emptiness of a list is decidable without decidable equality on the
elements. -/
instance listEqNilDecidable {β : Type} (l : List β) : Decidable (l = []) :=
  match l with
  | [] => isTrue rfl
  | _ :: _ => isFalse (by simp)

/-- Environment/MDP collaborator interface (spec §6, `gridworld.py`):
action enumeration, terminal predicate, and one stochastic draw of
`(next_state, reward)` consuming the random source. -/
structure MDP (S A R : Type) where
  actions : S → List A
  is_terminal : S → Bool
  sample : S → A → R → (S × ℚ) × R

/-- `MCTSConfig` dataclass of `mcts.py` with its defaults.  `rollouts` and
`max_depth` are Python `int`s, hence `ℤ`. -/
structure MCTSConfig where
  gamma : ℚ := 95 / 100
  c_uct : ℚ := 14 / 10
  rollouts : ℤ := 200
  max_depth : ℤ := 200

/-- Search-tree vertex of `mcts.py`: state, insertion-ordered children map
(Python `dict` preserves insertion order, hence an association list), visit
count and value sum. -/
inductive Node (S A : Type) : Type where
  | mk (state : S) (children : List (A × Node S A)) (visits : ℕ) (value_sum : ℚ)

def Node.state {S A : Type} : Node S A → S
  | .mk s _ _ _ => s

def Node.children {S A : Type} : Node S A → List (A × Node S A)
  | .mk _ c _ _ => c

def Node.visits {S A : Type} : Node S A → ℕ
  | .mk _ _ v _ => v

def Node.value_sum {S A : Type} : Node S A → ℚ
  | .mk _ _ _ q => q

/-- `Node.q` property: mean value, `0` at zero visits. -/
def Node.q {S A : Type} (n : Node S A) : ℚ :=
  if n.visits = 0 then 0 else n.value_sum / (n.visits : ℚ)

/-- Key lookup in the children association list (`action in node.children`,
`node.children[action]`). -/
def lookupChild {S A : Type} [DecidableEq A] (a : A) :
    List (A × Node S A) → Option (Node S A)
  | [] => none
  | (b, c) :: rest => if b = a then some c else lookupChild a rest

/-- Replace the child stored under key `a` (the pure rendering of mutating
the child object reached through `node.children[a]`). -/
def updateChild {S A : Type} [DecidableEq A] (a : A) (c' : Node S A) :
    List (A × Node S A) → List (A × Node S A)
  | [] => []
  | (b, c) :: rest =>
    if b = a then (b, c') :: rest else (b, c) :: updateChild a c' rest

/-- Loop body of `MCTS._select_uct` after the first scored child: `ba`/`bs`
are the running `best_action`/`best_score`; an unvisited child returns
immediately; a strictly greater score replaces the running best
(first-seen wins ties). -/
def select_uct_aux {S A α : Type} [LinearOrder α] (score : Node S A → α) :
    List (A × Node S A) → A → α → Option A
  | [], ba, _ => some ba
  | (a, c) :: rest, ba, bs =>
    if c.visits = 0 then some a
    else if bs < score c then select_uct_aux score rest a (score c)
    else select_uct_aux score rest ba bs

/-- `MCTS._select_uct`: `best_score` starts at `-inf`, so the first scored
child always becomes the running best; an unvisited child is returned as soon
as it is encountered. -/
def select_uct {S A α : Type} [LinearOrder α] (score : Node S A → α) :
    List (A × Node S A) → Option A
  | [] => none
  | (a, c) :: rest =>
    if c.visits = 0 then some a
    else select_uct_aux score rest a (score c)

/-- The UCT score of `mcts.py`:
`child.q + c_uct * sqrt(log(node.visits) / child.visits)`. -/
noncomputable def uctScore {S A : Type} (c_uct : ℝ) (parent_visits : ℕ)
    (c : Node S A) : ℝ :=
  (c.q : ℝ) + c_uct * Real.sqrt (Real.log (parent_visits : ℝ) / (c.visits : ℝ))

/-- The scoring function `MCTS._select_uct` actually uses, as a function of
the parent's visit count and the child. -/
noncomputable def mctsScore {S A : Type} (cfg : MCTSConfig) :
    ℕ → Node S A → ℝ :=
  fun n c => uctScore (cfg.c_uct : ℝ) n c

/-- Loop body of `MCTS._rollout`: while the state is non-terminal and depth
is below `max_depth`, break on an empty action list, otherwise draw a uniform
action and a transition and accumulate
`total += discount * reward; discount *= gamma`. -/
def rollout_aux {S A R : Type} (env : MDP S A R) (cfg : MCTSConfig)
    (rand : Rand R) (s : S) (depth : ℤ) (total discount : ℚ) (r : R) :
    ℚ × R :=
  if hc : env.is_terminal s = false ∧ depth < cfg.max_depth then
    if hact : env.actions s = [] then (total, r)
    else
      let ar := rand.choice (env.actions s) hact r
      let sr := env.sample s ar.1 ar.2
      rollout_aux env cfg rand sr.1.1 (depth + 1) (total + discount * sr.1.2)
        (discount * cfg.gamma) sr.2
  else (total, r)
termination_by (cfg.max_depth - depth).toNat
decreasing_by
  simp_wf
  omega

/-- `MCTS._rollout`: random-policy simulation from `state` at `depth`,
returning the accumulated discounted return (`total` starts at `0`,
`discount` at `1`) and the advanced random source.  The return type contains
no `Node`: the rollout builds no tree. -/
def rollout {S A R : Type} (env : MDP S A R) (cfg : MCTSConfig)
    (rand : Rand R) (s : S) (depth : ℤ) (r : R) : ℚ × R :=
  rollout_aux env cfg rand s depth 0 1 r

/-- Skipped expansion: the iteration rolls out from the frontier node's own
state and depth, and the node records one more visit and the rollout's
return. -/
def noExpandStep {S A R : Type} (env : MDP S A R) (cfg : MCTSConfig)
    (rand : Rand R) (node : Node S A) (depth : ℤ) (r : R) :
    Node S A × ℚ × R :=
  let vr := rollout env cfg rand node.state depth r
  (Node.mk node.state node.children (node.visits + 1) (node.value_sum + vr.1),
    vr.1, vr.2)

/-- Performed expansion: sample an unexplored action uniformly, sample its
transition (the immediate reward is discarded, as in the source), create the
child, roll out from the child's state at `depth + 1`, and record one visit
on the new child and on the node. -/
def expandStep {S A R : Type} (env : MDP S A R) (cfg : MCTSConfig)
    (rand : Rand R) (node : Node S A) (depth : ℤ) (unexplored : List A)
    (hu : unexplored ≠ []) (r : R) : Node S A × ℚ × R :=
  let ar := rand.choice unexplored hu r
  let sr := env.sample node.state ar.1 ar.2
  let vr := rollout env cfg rand sr.1.1 (depth + 1) sr.2
  (Node.mk node.state (node.children ++ [(ar.1, Node.mk sr.1.1 [] 1 vr.1)])
    (node.visits + 1) (node.value_sum + vr.1), vr.1, vr.2)

/-- Expansion guard of one `search` iteration, applied at the node where the
selection loop stopped: expand when the node is non-terminal, below
`max_depth`, has a nonempty action list and an unexplored action; otherwise
skip expansion. -/
def frontierStep {S A R : Type} [DecidableEq A] (env : MDP S A R)
    (cfg : MCTSConfig) (rand : Rand R) (node : Node S A) (depth : ℤ) (r : R) :
    Node S A × ℚ × R :=
  if env.is_terminal node.state = false ∧ depth < cfg.max_depth then
    if env.actions node.state = [] then noExpandStep env cfg rand node depth r
    else
      if hu : (env.actions node.state).filter
          (fun a => (lookupChild a node.children).isNone) = [] then
        noExpandStep env cfg rand node depth r
      else
        expandStep env cfg rand node depth
          ((env.actions node.state).filter
            (fun a => (lookupChild a node.children).isNone)) hu r
  else noExpandStep env cfg rand node depth r

/-- One iteration of the `search` loop of `mcts.py` (selection, expansion,
rollout, backpropagation), as a recursive descent: while the node has
children, is non-terminal and is below `max_depth`, descend into the
UCT-selected child; at the frontier run `frontierStep`; on the way out each
node on the path records `visits + 1` and `value_sum + value`, which is
exactly the source's backpropagation over `path`.  The two `none` fallthrough
arms are unreachable (`select_uct` returns a key of a nonempty children list)
and default to the frontier treatment. -/
def simulate {S A R α : Type} [DecidableEq A] [LinearOrder α]
    (env : MDP S A R) (cfg : MCTSConfig) (rand : Rand R)
    (score : ℕ → Node S A → α) (node : Node S A) (depth : ℤ) (r : R) :
    Node S A × ℚ × R :=
  if hc : node.children ≠ [] ∧ env.is_terminal node.state = false ∧
      depth < cfg.max_depth then
    match select_uct (score node.visits) node.children with
    | some a =>
      match lookupChild a node.children with
      | some child =>
        let cvr := simulate env cfg rand score child (depth + 1) r
        (Node.mk node.state (updateChild a cvr.1 node.children)
          (node.visits + 1) (node.value_sum + cvr.2.1), cvr.2.1, cvr.2.2)
      | none => frontierStep env cfg rand node depth r
    | none => frontierStep env cfg rand node depth r
  else frontierStep env cfg rand node depth r
termination_by (cfg.max_depth - depth).toNat
decreasing_by
  simp_wf
  omega

/-- The `for _ in range(self.cfg.rollouts)` loop of `MCTS.search`, iterated
`n` times on the root. -/
def searchLoop {S A R α : Type} [DecidableEq A] [LinearOrder α]
    (env : MDP S A R) (cfg : MCTSConfig) (rand : Rand R)
    (score : ℕ → Node S A → α) : ℕ → Node S A → R → Node S A × R
  | 0, root, r => (root, r)
  | n + 1, root, r =>
    let step := simulate env cfg rand score root 0 r
    searchLoop env cfg rand score n step.1 step.2.2

/-- The tree-building part of `MCTS.search`: fresh root for `root_state`,
then the full rollout budget (`range` of a negative `int` is empty, hence
`toNat`). -/
def searchRun {S A R α : Type} [DecidableEq A] [LinearOrder α]
    (env : MDP S A R) (cfg : MCTSConfig) (rand : Rand R)
    (score : ℕ → Node S A → α) (root_state : S) (r : R) : Node S A × R :=
  searchLoop env cfg rand score cfg.rollouts.toNat
    (Node.mk root_state [] 0 0) r

/-- Action-extraction loop of `MCTS.search`: running `best_a`/`best_v`,
strict improvement only (first-seen wins ties). -/
def bestActionAux {S A : Type} :
    List (A × Node S A) → Option A → ℤ → Option A
  | [], best, _ => best
  | (a, ch) :: rest, best, bv =>
    if bv < (ch.visits : ℤ) then bestActionAux rest (some a) (ch.visits : ℤ)
    else bestActionAux rest best bv

/-- `best_a` after the extraction loop: `best_v` starts at `-1`, so `best_a`
is `none` exactly when the root has no children. -/
def bestAction {S A : Type} (root : Node S A) : Option A :=
  bestActionAux root.children none (-1)

/-- `MCTS.search`: run the budget, return the root child with the most
visits; with no children fall back to the first enumerable action, raising
`RuntimeError("MCTS on terminal state")` when there is none.  The `Except`
range carries the Python exception channel. -/
def search {S A R α : Type} [DecidableEq A] [LinearOrder α]
    (env : MDP S A R) (cfg : MCTSConfig) (rand : Rand R)
    (score : ℕ → Node S A → α) (root_state : S) (r : R) : Except String A :=
  match bestAction (searchRun env cfg rand score root_state r).1 with
  | some a => Except.ok a
  | none =>
    match env.actions root_state with
    | [] => Except.error ("MCTS on terminal state")
    | a :: _ => Except.ok a

/-- The planner of the source: `search` with the genuine UCT scoring
function. -/
noncomputable def mctsSearch {S A R : Type} [DecidableEq A] (env : MDP S A R)
    (cfg : MCTSConfig) (rand : Rand R) (root_state : S) (r : R) :
    Except String A :=
  search env cfg rand (mctsScore cfg) root_state r

/-- The final tree of the source planner (root node and advanced random
source). -/
noncomputable def mctsSearchRun {S A R : Type} [DecidableEq A]
    (env : MDP S A R) (cfg : MCTSConfig) (rand : Rand R) (root_state : S)
    (r : R) : Node S A × R :=
  searchRun env cfg rand (mctsScore cfg) root_state r

/-- The `MCTS` object: the fields `__init__` stores. -/
structure MCTSAgent (S A R H : Type) where
  mdp : MDP S A R
  cfg : MCTSConfig
  rng : R
  heuristic : Option H

/-- `MCTS.__init__(mdp, cfg, rng=None, heuristic=None)`: stores its
arguments, defaulting a missing `rng` to the seed-0 generator state `seed0`.
The `Except` range carries the Python exception channel at construction time;
the body raises nothing. -/
def MCTS.init {S A R H : Type} (mdp : MDP S A R) (cfg : MCTSConfig)
    (rng : Option R) (heuristic : Option H) (seed0 : R) :
    Except String (MCTSAgent S A R H) :=
  Except.ok ⟨mdp, cfg, rng.getD seed0, heuristic⟩

/-- Visit-count distribution at the root's children (action, visit count),
in insertion order. -/
def rootVisitCounts {S A : Type} (root : Node S A) : List (A × ℕ) :=
  root.children.map (fun p => (p.1, p.2.visits))

/-- Invariant behind claim C9: every vertex of the tree that has at least
one child has been backpropagated through at least once. -/
inductive Node.Inv {S A : Type} : Node S A → Prop where
  | intro (s : S) (children : List (A × Node S A)) (visits : ℕ) (vs : ℚ)
      (hpos : children ≠ [] → 1 ≤ visits)
      (hrec : ∀ p ∈ children, Node.Inv p.2) :
      Node.Inv (Node.mk s children visits vs)

/-- `np.random.randint(low, high)` on a valid range `low < high`: a member of
`[low, high)` selected by the next draw.  (Outside a valid range NumPy raises
`ValueError`; no caller in the source reaches that case.) -/
def randint {R : Type} (rand : Rand R) (low high : ℤ) (r : R) : ℤ × R :=
  let nr := rand.next r
  (low + ((nr.1 % (high - low).toNat : ℕ) : ℤ), nr.2)

/-- `ExplorationOnly.select_arm`: `np.random.randint(0, self.n_arms)`. -/
def select_arm {R : Type} (n_arms : ℤ) (rand : Rand R) (r : R) : ℤ × R :=
  randint rand 0 n_arms r

/-! Concrete instances used by the witnesses and counterexamples. -/

/-- A deterministic test generator: state `r` draws `r` and steps to
`r + 1`. -/
def testRand : Rand ℕ := ⟨fun r => (r, r + 1)⟩

/-- A one-action chain environment: never terminal, action `0` everywhere,
reward `1`. -/
def envChain : MDP ℕ ℕ ℕ :=
  ⟨fun _ => [0], fun _ => false, fun s _ r => ((s + 1, 1), r)⟩

/-- An environment with no enumerable action anywhere (and never terminal):
the InvalidRoot scenario. -/
def envNoActs : MDP ℕ ℕ ℕ :=
  ⟨fun _ => [], fun _ => false, fun s _ r => ((s, 0), r)⟩

/-- An environment in which every state is terminal but still enumerates
actions `[3, 4]`. -/
def envTermActs : MDP ℕ ℕ ℕ :=
  ⟨fun _ => [3, 4], fun _ => true, fun s _ r => ((s, 0), r)⟩

/-- A small test configuration. -/
def cfgSmall : MCTSConfig := ⟨95 / 100, 14 / 10, 3, 2⟩

/-- A zero-budget configuration. -/
def cfgZero : MCTSConfig := ⟨95 / 100, 14 / 10, 0, 2⟩

/-- A configuration violating all four constraints of spec §7:
`gamma` outside `(0, 1]`, negative `c_uct`, non-positive `rollouts`,
non-positive `max_depth`. -/
def cfgBad : MCTSConfig := ⟨2, -1, 0, -3⟩

/-! Helper lemmas. -/

theorem Rand.choice_mem {R A : Type} (rand : Rand R) (l : List A) (h : l ≠ [])
    (r : R) : (rand.choice l h r).1 ∈ l := by
  unfold Rand.choice
  rcases hn : rand.next r with ⟨n, r'⟩
  simp only [hn]
  exact List.get_mem l _ _

theorem lookupChild_mem {S A : Type} [DecidableEq A] {a : A}
    {l : List (A × Node S A)} {c : Node S A}
    (h : lookupChild a l = some c) : (a, c) ∈ l := by
  induction l with
  | nil => simp [lookupChild] at h
  | cons hd tl ih =>
    obtain ⟨b, d⟩ := hd
    by_cases hb : b = a
    · subst hb
      simp [lookupChild] at h
      subst h
      exact List.mem_cons_self _ _
    · simp [lookupChild, hb] at h
      exact List.mem_cons_of_mem _ (ih h)

theorem updateChild_map_fst {S A : Type} [DecidableEq A] (a : A)
    (c' : Node S A) (l : List (A × Node S A)) :
    (updateChild a c' l).map Prod.fst = l.map Prod.fst := by
  induction l with
  | nil => rfl
  | cons hd tl ih =>
    obtain ⟨b, c⟩ := hd
    by_cases hb : b = a
    · simp [updateChild, hb]
    · simp [updateChild, hb, ih]

theorem mem_updateChild {S A : Type} [DecidableEq A] {a : A} {c' : Node S A}
    {l : List (A × Node S A)} {p : A × Node S A}
    (h : p ∈ updateChild a c' l) : p.2 = c' ∨ p ∈ l := by
  induction l with
  | nil => simp [updateChild] at h
  | cons hd tl ih =>
    obtain ⟨b, c⟩ := hd
    by_cases hb : b = a
    · simp [updateChild, hb] at h
      rcases h with h | h
      · exact Or.inl (by rw [h])
      · exact Or.inr (List.mem_cons_of_mem _ h)
    · simp [updateChild, hb] at h
      rcases h with h | h
      · exact Or.inr (by simp [h])
      · rcases ih h with h' | h'
        · exact Or.inl h'
        · exact Or.inr (List.mem_cons_of_mem _ h')

theorem noExpandStep_visits {S A R : Type} (env : MDP S A R)
    (cfg : MCTSConfig) (rand : Rand R) (node : Node S A) (depth : ℤ) (r : R) :
    (noExpandStep env cfg rand node depth r).1.visits = node.visits + 1 := rfl

theorem noExpandStep_state {S A R : Type} (env : MDP S A R)
    (cfg : MCTSConfig) (rand : Rand R) (node : Node S A) (depth : ℤ) (r : R) :
    (noExpandStep env cfg rand node depth r).1.state = node.state := rfl

theorem noExpandStep_children {S A R : Type} (env : MDP S A R)
    (cfg : MCTSConfig) (rand : Rand R) (node : Node S A) (depth : ℤ) (r : R) :
    (noExpandStep env cfg rand node depth r).1.children = node.children := rfl

theorem expandStep_visits {S A R : Type} (env : MDP S A R) (cfg : MCTSConfig)
    (rand : Rand R) (node : Node S A) (depth : ℤ) (unexplored : List A)
    (hu : unexplored ≠ []) (r : R) :
    (expandStep env cfg rand node depth unexplored hu r).1.visits =
      node.visits + 1 := rfl

theorem expandStep_state {S A R : Type} (env : MDP S A R) (cfg : MCTSConfig)
    (rand : Rand R) (node : Node S A) (depth : ℤ) (unexplored : List A)
    (hu : unexplored ≠ []) (r : R) :
    (expandStep env cfg rand node depth unexplored hu r).1.state =
      node.state := rfl

theorem expandStep_keys {S A R : Type} (env : MDP S A R) (cfg : MCTSConfig)
    (rand : Rand R) (node : Node S A) (depth : ℤ) (unexplored : List A)
    (hu : unexplored ≠ []) (r : R) :
    ∀ p ∈ (expandStep env cfg rand node depth unexplored hu r).1.children,
      p.1 ∈ node.children.map Prod.fst ∨ p.1 ∈ unexplored := by
  intro p hp
  rcases List.mem_append.mp hp with h | h
  · exact Or.inl (List.mem_map_of_mem _ h)
  · simp only [List.mem_singleton] at h
    rw [h]
    exact Or.inr (Rand.choice_mem rand unexplored hu r)

theorem frontierStep_visits {S A R : Type} [DecidableEq A] (env : MDP S A R)
    (cfg : MCTSConfig) (rand : Rand R) (node : Node S A) (depth : ℤ) (r : R) :
    (frontierStep env cfg rand node depth r).1.visits = node.visits + 1 := by
  unfold frontierStep
  split
  · split
    · rfl
    · split
      · rfl
      · rfl
  · rfl

theorem frontierStep_state {S A R : Type} [DecidableEq A] (env : MDP S A R)
    (cfg : MCTSConfig) (rand : Rand R) (node : Node S A) (depth : ℤ) (r : R) :
    (frontierStep env cfg rand node depth r).1.state = node.state := by
  unfold frontierStep
  split
  · split
    · rfl
    · split
      · rfl
      · rfl
  · rfl

theorem simulate_visits {S A R α : Type} [DecidableEq A] [LinearOrder α]
    (env : MDP S A R) (cfg : MCTSConfig) (rand : Rand R)
    (score : ℕ → Node S A → α) (node : Node S A) (depth : ℤ) (r : R) :
    (simulate env cfg rand score node depth r).1.visits = node.visits + 1 := by
  unfold simulate
  split
  · split
    · split
      · simp [Node.visits]
      · exact frontierStep_visits env cfg rand node depth r
    · exact frontierStep_visits env cfg rand node depth r
  · exact frontierStep_visits env cfg rand node depth r

theorem simulate_state {S A R α : Type} [DecidableEq A] [LinearOrder α]
    (env : MDP S A R) (cfg : MCTSConfig) (rand : Rand R)
    (score : ℕ → Node S A → α) (node : Node S A) (depth : ℤ) (r : R) :
    (simulate env cfg rand score node depth r).1.state = node.state := by
  unfold simulate
  split
  · split
    · split
      · simp [Node.state]
      · exact frontierStep_state env cfg rand node depth r
    · exact frontierStep_state env cfg rand node depth r
  · exact frontierStep_state env cfg rand node depth r

theorem frontierStep_keys {S A R : Type} [DecidableEq A] (env : MDP S A R)
    (cfg : MCTSConfig) (rand : Rand R) (node : Node S A) (depth : ℤ) (r : R) :
    ∀ p ∈ (frontierStep env cfg rand node depth r).1.children,
      p.1 ∈ node.children.map Prod.fst ∨ p.1 ∈ env.actions node.state := by
  unfold frontierStep
  split
  · split
    · intro p hp
      rw [noExpandStep_children] at hp
      exact Or.inl (List.mem_map_of_mem _ hp)
    · split
      · intro p hp
        rw [noExpandStep_children] at hp
        exact Or.inl (List.mem_map_of_mem _ hp)
      · intro p hp
        rcases expandStep_keys env cfg rand node depth _ _ r p hp with h | h
        · exact Or.inl h
        · exact Or.inr (List.mem_filter.mp h).1
  · intro p hp
    rw [noExpandStep_children] at hp
    exact Or.inl (List.mem_map_of_mem _ hp)

theorem simulate_keys {S A R α : Type} [DecidableEq A] [LinearOrder α]
    (env : MDP S A R) (cfg : MCTSConfig) (rand : Rand R)
    (score : ℕ → Node S A → α) (node : Node S A) (depth : ℤ) (r : R) :
    ∀ p ∈ (simulate env cfg rand score node depth r).1.children,
      p.1 ∈ node.children.map Prod.fst ∨ p.1 ∈ env.actions node.state := by
  unfold simulate
  split
  · split
    · split
      · intro p hp
        simp only [Node.children] at hp
        left
        rw [← updateChild_map_fst _ ((simulate env cfg rand score _ (depth + 1) r).1)]
        exact List.mem_map_of_mem _ hp
      · exact frontierStep_keys env cfg rand node depth r
    · exact frontierStep_keys env cfg rand node depth r
  · exact frontierStep_keys env cfg rand node depth r

theorem frontierStep_children_stuck {S A R : Type} [DecidableEq A]
    (env : MDP S A R) (cfg : MCTSConfig) (rand : Rand R) (node : Node S A)
    (depth : ℤ) (r : R)
    (h : env.is_terminal node.state = true ∨ env.actions node.state = []) :
    (frontierStep env cfg rand node depth r).1.children = node.children := by
  unfold frontierStep
  rcases h with h | h
  · rw [if_neg]
    · exact noExpandStep_children env cfg rand node depth r
    · rintro ⟨h1, _⟩
      rw [h] at h1
      cases h1
  · split
    · exact noExpandStep_children env cfg rand node depth r
    · exact noExpandStep_children env cfg rand node depth r

theorem simulate_children_stuck {S A R α : Type} [DecidableEq A]
    [LinearOrder α] (env : MDP S A R) (cfg : MCTSConfig) (rand : Rand R)
    (score : ℕ → Node S A → α) (node : Node S A) (depth : ℤ) (r : R)
    (hch : node.children = [])
    (h : env.is_terminal node.state = true ∨ env.actions node.state = []) :
    (simulate env cfg rand score node depth r).1.children = [] := by
  unfold simulate
  split
  · rename_i hc
    exact absurd hch hc.1
  · rw [frontierStep_children_stuck env cfg rand node depth r h, hch]

theorem searchLoop_visits {S A R α : Type} [DecidableEq A] [LinearOrder α]
    (env : MDP S A R) (cfg : MCTSConfig) (rand : Rand R)
    (score : ℕ → Node S A → α) :
    ∀ (n : ℕ) (root : Node S A) (r : R),
      ((searchLoop env cfg rand score n root r).1).visits = root.visits + n := by
  intro n
  induction n with
  | zero => intro root r; simp [searchLoop]
  | succ n ih =>
    intro root r
    simp only [searchLoop]
    rw [ih, simulate_visits]
    omega

theorem searchLoop_state {S A R α : Type} [DecidableEq A] [LinearOrder α]
    (env : MDP S A R) (cfg : MCTSConfig) (rand : Rand R)
    (score : ℕ → Node S A → α) :
    ∀ (n : ℕ) (root : Node S A) (r : R),
      ((searchLoop env cfg rand score n root r).1).state = root.state := by
  intro n
  induction n with
  | zero => intro root r; simp [searchLoop]
  | succ n ih =>
    intro root r
    simp only [searchLoop]
    rw [ih, simulate_state]

theorem searchLoop_keys {S A R α : Type} [DecidableEq A] [LinearOrder α]
    (env : MDP S A R) (cfg : MCTSConfig) (rand : Rand R)
    (score : ℕ → Node S A → α) (s : S) :
    ∀ (n : ℕ) (root : Node S A) (r : R), root.state = s →
      (∀ p ∈ root.children, p.1 ∈ env.actions s) →
      ∀ p ∈ ((searchLoop env cfg rand score n root r).1).children,
        p.1 ∈ env.actions s := by
  intro n
  induction n with
  | zero =>
    intro root r _ hkeys
    simpa [searchLoop] using hkeys
  | succ n ih =>
    intro root r hs hkeys
    simp only [searchLoop]
    refine ih _ _ ?_ ?_
    · rw [simulate_state, hs]
    · intro p hp
      rcases simulate_keys env cfg rand score root 0 r p hp with h | h
      · rcases List.mem_map.mp h with ⟨q, hq, hq1⟩
        rw [← hq1]
        exact hkeys q hq
      · rw [hs] at h
        exact h

theorem searchLoop_children_stuck {S A R α : Type} [DecidableEq A]
    [LinearOrder α] (env : MDP S A R) (cfg : MCTSConfig) (rand : Rand R)
    (score : ℕ → Node S A → α) (s : S)
    (h : env.is_terminal s = true ∨ env.actions s = []) :
    ∀ (n : ℕ) (root : Node S A) (r : R), root.state = s →
      root.children = [] →
      ((searchLoop env cfg rand score n root r).1).children = [] := by
  intro n
  induction n with
  | zero =>
    intro root r _ hch
    simpa [searchLoop] using hch
  | succ n ih =>
    intro root r hs hch
    simp only [searchLoop]
    refine ih _ _ ?_ ?_
    · rw [simulate_state, hs]
    · refine simulate_children_stuck env cfg rand score root 0 r hch ?_
      rw [hs]
      exact h

theorem bestActionAux_mem {S A : Type} :
    ∀ (l : List (A × Node S A)) (acc : Option A) (bv : ℤ) (a : A),
      bestActionAux l acc bv = some a → acc = some a ∨ a ∈ l.map Prod.fst := by
  intro l
  induction l with
  | nil =>
    intro acc bv a h
    simp only [bestActionAux] at h
    exact Or.inl h
  | cons hd tl ih =>
    intro acc bv a h
    obtain ⟨b, c⟩ := hd
    simp only [bestActionAux] at h
    split at h
    · rcases ih _ _ _ h with h' | h'
      · simp only [Option.some.injEq] at h'
        exact Or.inr (by simp [h'])
      · exact Or.inr (by simp [h'])
    · rcases ih _ _ _ h with h' | h'
      · exact Or.inl h'
      · exact Or.inr (by simp [h'])

theorem bestAction_mem {S A : Type} (root : Node S A) (a : A)
    (h : bestAction root = some a) : a ∈ root.children.map Prod.fst := by
  rcases bestActionAux_mem root.children none (-1) a h with h' | h'
  · cases h'
  · exact h'

theorem bestAction_of_no_children {S A : Type} (root : Node S A)
    (h : root.children = []) : bestAction root = none := by
  unfold bestAction
  rw [h]
  rfl

theorem select_uct_aux_all_le {S A α : Type} [LinearOrder α]
    (score : Node S A → α) :
    ∀ (l : List (A × Node S A)) (ba : A) (bs : α),
      (∀ p ∈ l, p.2.visits ≠ 0) → (∀ p ∈ l, score p.2 ≤ bs) →
      select_uct_aux score l ba bs = some ba := by
  intro l
  induction l with
  | nil => intro ba bs _ _; rfl
  | cons hd tl ih =>
    intro ba bs h0 hle
    obtain ⟨a, c⟩ := hd
    have hc0 : c.visits ≠ 0 := h0 (a, c) (List.mem_cons_self _ _)
    have hcle : score c ≤ bs := hle (a, c) (List.mem_cons_self _ _)
    simp only [select_uct_aux]
    rw [if_neg hc0, if_neg (not_lt.mpr hcle)]
    exact ih ba bs (fun p hp => h0 p (List.mem_cons_of_mem _ hp))
      (fun p hp => hle p (List.mem_cons_of_mem _ hp))

theorem select_uct_aux_exists_gt {S A α : Type} [LinearOrder α]
    (score : Node S A → α) :
    ∀ (l : List (A × Node S A)) (ba : A) (bs : α),
      (∀ p ∈ l, p.2.visits ≠ 0) → (∃ p ∈ l, bs < score p.2) →
      ∃ pre p post, l = pre ++ p :: post ∧
        select_uct_aux score l ba bs = some p.1 ∧ bs < score p.2 ∧
        (∀ q ∈ pre, score q.2 < score p.2) ∧
        (∀ q ∈ l, score q.2 ≤ score p.2) := by
  intro l
  induction l with
  | nil => intro ba bs _ hex; simp at hex
  | cons hd tl ih =>
    intro ba bs h0 hex
    obtain ⟨a, c⟩ := hd
    have hc0 : c.visits ≠ 0 := h0 _ (List.mem_cons_self _ _)
    have h0t : ∀ p ∈ tl, p.2.visits ≠ 0 :=
      fun p hp => h0 p (List.mem_cons_of_mem _ hp)
    by_cases hlt : bs < score c
    · by_cases hall : ∀ q ∈ tl, score q.2 ≤ score c
      · refine ⟨[], (a, c), tl, by simp, ?_, hlt, by simp, ?_⟩
        · simp only [select_uct_aux]
          rw [if_neg hc0, if_pos hlt]
          exact select_uct_aux_all_le score tl a (score c) h0t hall
        · intro q hq
          rcases List.mem_cons.mp hq with h | h
          · rw [h]
          · exact hall q h
      · push_neg at hall
        obtain ⟨pre, p, post, heq, hres, hgt, hpre, hle⟩ :=
          ih a (score c) h0t hall
        refine ⟨(a, c) :: pre, p, post, by rw [heq, List.cons_append], ?_,
          lt_trans hlt hgt, ?_, ?_⟩
        · simp only [select_uct_aux]
          rw [if_neg hc0, if_pos hlt]
          exact hres
        · intro q hq
          rcases List.mem_cons.mp hq with h | h
          · rw [h]; exact hgt
          · exact hpre q h
        · intro q hq
          rcases List.mem_cons.mp hq with h | h
          · rw [h]; exact le_of_lt hgt
          · exact hle q h
    · have hex' : ∃ p ∈ tl, bs < score p.2 := by
        rcases hex with ⟨p, hp, hbp⟩
        rcases List.mem_cons.mp hp with h | h
        · rw [h] at hbp; exact absurd hbp hlt
        · exact ⟨p, h, hbp⟩
      obtain ⟨pre, p, post, heq, hres, hgt, hpre, hle⟩ := ih ba bs h0t hex'
      refine ⟨(a, c) :: pre, p, post, by rw [heq, List.cons_append], ?_, hgt, ?_, ?_⟩
      · simp only [select_uct_aux]
        rw [if_neg hc0, if_neg hlt]
        exact hres
      · intro q hq
        rcases List.mem_cons.mp hq with h | h
        · rw [h]; exact lt_of_le_of_lt (not_lt.mp hlt) hgt
        · exact hpre q h
      · intro q hq
        rcases List.mem_cons.mp hq with h | h
        · rw [h]; exact le_trans (not_lt.mp hlt) (le_of_lt hgt)
        · exact hle q h

theorem select_uct_aux_unvisited {S A α : Type} [LinearOrder α]
    (score : Node S A → α) :
    ∀ (pre : List (A × Node S A)) (a : A) (c : Node S A)
      (post : List (A × Node S A)) (ba : A) (bs : α),
      (∀ p ∈ pre, p.2.visits ≠ 0) → c.visits = 0 →
      select_uct_aux score (pre ++ (a, c) :: post) ba bs = some a := by
  intro pre
  induction pre with
  | nil =>
    intro a c post ba bs _ hc
    simp only [List.nil_append, select_uct_aux]
    rw [if_pos hc]
  | cons hd tlp ih =>
    intro a c post ba bs hpre hc
    obtain ⟨b, d⟩ := hd
    have hd0 : d.visits ≠ 0 := hpre _ (List.mem_cons_self _ _)
    have hpre' : ∀ p ∈ tlp, p.2.visits ≠ 0 :=
      fun p hp => hpre p (List.mem_cons_of_mem _ hp)
    simp only [List.cons_append, select_uct_aux]
    rw [if_neg hd0]
    by_cases hlt : bs < score d
    · rw [if_pos hlt]; exact ih a c post b (score d) hpre' hc
    · rw [if_neg hlt]; exact ih a c post ba bs hpre' hc

theorem select_uct_unvisited {S A α : Type} [LinearOrder α]
    (score : Node S A → α) (pre : List (A × Node S A)) (a : A)
    (c : Node S A) (post : List (A × Node S A))
    (hpre : ∀ p ∈ pre, p.2.visits ≠ 0) (hc : c.visits = 0) :
    select_uct score (pre ++ (a, c) :: post) = some a := by
  cases pre with
  | nil =>
    simp only [List.nil_append, select_uct]
    rw [if_pos hc]
  | cons hd tlp =>
    obtain ⟨b, d⟩ := hd
    have hd0 : d.visits ≠ 0 := hpre _ (List.mem_cons_self _ _)
    simp only [List.cons_append, select_uct]
    rw [if_neg hd0]
    exact select_uct_aux_unvisited score tlp a c post b (score d)
      (fun p hp => hpre p (List.mem_cons_of_mem _ hp)) hc

theorem select_uct_max {S A α : Type} [LinearOrder α]
    (score : Node S A → α) (l : List (A × Node S A)) (hne : l ≠ [])
    (h0 : ∀ p ∈ l, p.2.visits ≠ 0) :
    ∃ pre p post, l = pre ++ p :: post ∧ select_uct score l = some p.1 ∧
      (∀ q ∈ pre, score q.2 < score p.2) ∧
      (∀ q ∈ l, score q.2 ≤ score p.2) := by
  cases l with
  | nil => exact absurd rfl hne
  | cons hd tl =>
    obtain ⟨a, c⟩ := hd
    have hc0 : c.visits ≠ 0 := h0 _ (List.mem_cons_self _ _)
    have h0t : ∀ p ∈ tl, p.2.visits ≠ 0 :=
      fun p hp => h0 p (List.mem_cons_of_mem _ hp)
    by_cases hall : ∀ q ∈ tl, score q.2 ≤ score c
    · refine ⟨[], (a, c), tl, by simp, ?_, by simp, ?_⟩
      · simp only [select_uct]
        rw [if_neg hc0]
        exact select_uct_aux_all_le score tl a (score c) h0t hall
      · intro q hq
        rcases List.mem_cons.mp hq with h | h
        · rw [h]
        · exact hall q h
    · push_neg at hall
      obtain ⟨pre, p, post, heq, hres, hgt, hpre, hle⟩ :=
        select_uct_aux_exists_gt score tl a (score c) h0t hall
      refine ⟨(a, c) :: pre, p, post, by rw [heq, List.cons_append], ?_, ?_, ?_⟩
      · simp only [select_uct]
        rw [if_neg hc0]
        exact hres
      · intro q hq
        rcases List.mem_cons.mp hq with h | h
        · rw [h]; exact hgt
        · exact hpre q h
      · intro q hq
        rcases List.mem_cons.mp hq with h | h
        · rw [h]; exact le_of_lt hgt
        · exact hle q h

theorem rollout_aux_stuck {S A R : Type} (env : MDP S A R) (cfg : MCTSConfig)
    (rand : Rand R) (s : S) (depth : ℤ) (total discount : ℚ) (r : R)
    (h : ¬(env.is_terminal s = false ∧ depth < cfg.max_depth)) :
    rollout_aux env cfg rand s depth total discount r = (total, r) := by
  unfold rollout_aux
  rw [dif_neg h]

theorem rollout_aux_no_actions {S A R : Type} (env : MDP S A R)
    (cfg : MCTSConfig) (rand : Rand R) (s : S) (depth : ℤ)
    (total discount : ℚ) (r : R) (hact : env.actions s = []) :
    rollout_aux env cfg rand s depth total discount r = (total, r) := by
  unfold rollout_aux
  split
  · rfl
  · rfl

theorem rollout_aux_affine {S A R : Type} (env : MDP S A R) (cfg : MCTSConfig)
    (rand : Rand R) :
    ∀ (k : ℕ) (s : S) (depth : ℤ) (r : R), (cfg.max_depth - depth).toNat ≤ k →
      ∀ (total discount : ℚ),
      rollout_aux env cfg rand s depth total discount r =
        (total + discount * (rollout_aux env cfg rand s depth 0 1 r).1,
          (rollout_aux env cfg rand s depth 0 1 r).2) := by
  intro k
  induction k with
  | zero =>
    intro s depth r hk total discount
    have hcond : ¬(env.is_terminal s = false ∧ depth < cfg.max_depth) := by
      rintro ⟨_, hd⟩
      omega
    rw [rollout_aux_stuck env cfg rand s depth total discount r hcond,
      rollout_aux_stuck env cfg rand s depth 0 1 r hcond]
    simp
  | succ k ih =>
    intro s depth r hk total discount
    by_cases hcond : env.is_terminal s = false ∧ depth < cfg.max_depth
    · by_cases hact : env.actions s = []
      · rw [rollout_aux_no_actions env cfg rand s depth total discount r hact,
          rollout_aux_no_actions env cfg rand s depth 0 1 r hact]
        simp
      · have hk' : (cfg.max_depth - (depth + 1)).toNat ≤ k := by
          rcases hcond with ⟨_, hd⟩
          omega
        conv_lhs => rw [rollout_aux]
        conv_rhs => rw [rollout_aux]
        rw [dif_pos hcond, dif_pos hcond, dif_neg hact, dif_neg hact]
        set ar := rand.choice (env.actions s) hact r with har
        set sr := env.sample s ar.1 ar.2 with hsr
        rw [ih sr.1.1 (depth + 1) sr.2 hk' (total + discount * sr.1.2)
            (discount * cfg.gamma),
          ih sr.1.1 (depth + 1) sr.2 hk' (0 + 1 * sr.1.2) (1 * cfg.gamma)]
        simp only [Prod.mk.injEq]
        constructor
        · ring
        · trivial
    · rw [rollout_aux_stuck env cfg rand s depth total discount r hcond,
        rollout_aux_stuck env cfg rand s depth 0 1 r hcond]
      simp

theorem Node.Inv.pos {S A : Type} {n : Node S A} (h : Node.Inv n)
    (hch : n.children ≠ []) : 1 ≤ n.visits := by
  cases h with
  | intro s c v vs hpos hrec => exact hpos hch

theorem Node.Inv.mem {S A : Type} {n : Node S A} (h : Node.Inv n) :
    ∀ p ∈ n.children, Node.Inv p.2 := by
  cases h with
  | intro s c v vs hpos hrec => exact hrec

theorem noExpandStep_inv {S A R : Type} (env : MDP S A R) (cfg : MCTSConfig)
    (rand : Rand R) (node : Node S A) (depth : ℤ) (r : R)
    (hinv : Node.Inv node) : Node.Inv (noExpandStep env cfg rand node depth r).1 := by
  exact Node.Inv.intro _ _ _ _ (fun _ => by omega) hinv.mem

theorem expandStep_inv {S A R : Type} (env : MDP S A R) (cfg : MCTSConfig)
    (rand : Rand R) (node : Node S A) (depth : ℤ) (unexplored : List A)
    (hu : unexplored ≠ []) (r : R) (hinv : Node.Inv node) :
    Node.Inv (expandStep env cfg rand node depth unexplored hu r).1 := by
  refine Node.Inv.intro _ _ _ _ (fun _ => by omega) ?_
  intro p hp
  rcases List.mem_append.mp hp with h | h
  · exact hinv.mem p h
  · simp only [List.mem_singleton] at h
    rw [h]
    exact Node.Inv.intro _ _ _ _ (fun hne => absurd rfl hne) (by simp)

theorem frontierStep_inv {S A R : Type} [DecidableEq A] (env : MDP S A R)
    (cfg : MCTSConfig) (rand : Rand R) (node : Node S A) (depth : ℤ) (r : R)
    (hinv : Node.Inv node) :
    Node.Inv (frontierStep env cfg rand node depth r).1 := by
  unfold frontierStep
  split
  · split
    · exact noExpandStep_inv env cfg rand node depth r hinv
    · split
      · exact noExpandStep_inv env cfg rand node depth r hinv
      · exact expandStep_inv env cfg rand node depth _ _ r hinv
  · exact noExpandStep_inv env cfg rand node depth r hinv

theorem simulate_inv_aux {S A R α : Type} [DecidableEq A] [LinearOrder α]
    (env : MDP S A R) (cfg : MCTSConfig) (rand : Rand R)
    (score : ℕ → Node S A → α) :
    ∀ (k : ℕ) (node : Node S A) (depth : ℤ) (r : R),
      (cfg.max_depth - depth).toNat ≤ k → Node.Inv node →
      Node.Inv (simulate env cfg rand score node depth r).1 := by
  intro k
  induction k with
  | zero =>
    intro node depth r hk hinv
    unfold simulate
    split
    · rename_i hc
      exfalso
      rcases hc with ⟨_, _, hd⟩
      omega
    · exact frontierStep_inv env cfg rand node depth r hinv
  | succ k ih =>
    intro node depth r hk hinv
    unfold simulate
    split
    · rename_i hc
      split
      · split
        · rename_i a ha child hchild
          refine Node.Inv.intro _ _ _ _ (fun _ => by omega) ?_
          intro p hp
          rcases mem_updateChild hp with hpc | hpc
          · rw [hpc]
            refine ih _ (depth + 1) r ?_ ?_
            · rcases hc with ⟨_, _, hd⟩
              omega
            · exact hinv.mem _ (lookupChild_mem hchild)
          · exact hinv.mem _ hpc
        · exact frontierStep_inv env cfg rand node depth r hinv
      · exact frontierStep_inv env cfg rand node depth r hinv
    · exact frontierStep_inv env cfg rand node depth r hinv

theorem simulate_inv {S A R α : Type} [DecidableEq A] [LinearOrder α]
    (env : MDP S A R) (cfg : MCTSConfig) (rand : Rand R)
    (score : ℕ → Node S A → α) (node : Node S A) (depth : ℤ) (r : R)
    (hinv : Node.Inv node) :
    Node.Inv (simulate env cfg rand score node depth r).1 :=
  simulate_inv_aux env cfg rand score (cfg.max_depth - depth).toNat node depth
    r le_rfl hinv

theorem searchLoop_inv {S A R α : Type} [DecidableEq A] [LinearOrder α]
    (env : MDP S A R) (cfg : MCTSConfig) (rand : Rand R)
    (score : ℕ → Node S A → α) :
    ∀ (n : ℕ) (root : Node S A) (r : R), Node.Inv root →
      Node.Inv ((searchLoop env cfg rand score n root r).1) := by
  intro n
  induction n with
  | zero =>
    intro root r hinv
    simpa [searchLoop] using hinv
  | succ n ih =>
    intro root r hinv
    simp only [searchLoop]
    exact ih _ _ (simulate_inv env cfg rand score root 0 r hinv)

theorem search_of_children_empty {S A R α : Type} [DecidableEq A]
    [LinearOrder α] (env : MDP S A R) (cfg : MCTSConfig) (rand : Rand R)
    (score : ℕ → Node S A → α) (s : S) (r : R)
    (h : ((searchRun env cfg rand score s r).1).children = []) :
    search env cfg rand score s r =
      match env.actions s with
      | [] => Except.error ("MCTS on terminal state")
      | a :: _ => Except.ok a := by
  unfold search
  rw [bestAction_of_no_children _ h]

/-! Claim theorems. -/

/-- C2: for every non-terminal root state with at least one enumerable action
and every configuration with a (non-negative, per spec §4.2 positive) rollout
budget, after `search(root_state)` completes the root node's visit count
equals exactly the budget: every simulation iteration's backpropagation path
includes the root. -/
theorem claim_C2_root_visits {S A R : Type} [DecidableEq A] (env : MDP S A R)
    (cfg : MCTSConfig) (rand : Rand R) (s : S) (r : R)
    (hterm : env.is_terminal s = false) (hact : env.actions s ≠ [])
    (hroll : 0 ≤ cfg.rollouts) :
    ((mctsSearchRun env cfg rand s r).1.visits : ℤ) = cfg.rollouts := by
  unfold mctsSearchRun searchRun
  rw [searchLoop_visits]
  simp only [Node.visits]
  omega

/-- Witness for C2: a concrete chain environment with budget 3. -/
theorem claim_C2_witness :
    envChain.is_terminal 0 = false ∧ envChain.actions 0 ≠ [] ∧
    (0 : ℤ) ≤ cfgSmall.rollouts ∧
    ((mctsSearchRun envChain cfgSmall testRand 0 0).1.visits : ℤ) =
      cfgSmall.rollouts :=
  ⟨rfl, by decide, by decide,
    claim_C2_root_visits envChain cfgSmall testRand 0 0 rfl (by decide)
      (by decide)⟩

/-- C3: for every non-terminal root state at which the environment enumerates
at least one action, `search(root_state)` returns an action that is a member
of `actions(root_state)`. -/
theorem claim_C3_returns_member {S A R : Type} [DecidableEq A]
    (env : MDP S A R) (cfg : MCTSConfig) (rand : Rand R) (s : S) (r : R)
    (hterm : env.is_terminal s = false) (hact : env.actions s ≠ []) :
    ∃ a, mctsSearch env cfg rand s r = Except.ok a ∧ a ∈ env.actions s := by
  have hkeys : ∀ p ∈ ((searchRun env cfg rand (mctsScore cfg) s r).1).children,
      p.1 ∈ env.actions s := by
    unfold searchRun
    exact searchLoop_keys env cfg rand (mctsScore cfg) s _ _ _ rfl (by simp [Node.children])
  unfold mctsSearch search
  cases hba : bestAction (searchRun env cfg rand (mctsScore cfg) s r).1 with
  | some a =>
    refine ⟨a, rfl, ?_⟩
    have hmem := bestAction_mem _ _ hba
    rcases List.mem_map.mp hmem with ⟨q, hq, hq1⟩
    rw [← hq1]
    exact hkeys q hq
  | none =>
    cases hacts : env.actions s with
    | nil => exact absurd hacts hact
    | cons a rest => exact ⟨a, rfl, List.mem_cons_self _ _⟩

/-- Witness for C3: the chain environment. -/
theorem claim_C3_witness :
    envChain.is_terminal 0 = false ∧ envChain.actions 0 ≠ [] ∧
    ∃ a, mctsSearch envChain cfgSmall testRand 0 0 = Except.ok a ∧
      a ∈ envChain.actions 0 :=
  ⟨rfl, by decide,
    claim_C3_returns_member envChain cfgSmall testRand 0 0 rfl (by decide)⟩

/-- C5: given the same seeded random source, the same environment (whose
sampling is a deterministic function of the random-source state) and the same
configuration, two independent `search` calls on the same root state return
the same action and build trees with identical visit-count distributions at
the root's children. -/
theorem claim_C5_deterministic {S A R : Type} [DecidableEq A]
    (env1 env2 : MDP S A R) (cfg1 cfg2 : MCTSConfig) (rand1 rand2 : Rand R)
    (s1 s2 : S) (r1 r2 : R) (henv : env1 = env2) (hcfg : cfg1 = cfg2)
    (hrand : rand1 = rand2) (hs : s1 = s2) (hr : r1 = r2) :
    mctsSearch env1 cfg1 rand1 s1 r1 = mctsSearch env2 cfg2 rand2 s2 r2 ∧
    rootVisitCounts (mctsSearchRun env1 cfg1 rand1 s1 r1).1 =
      rootVisitCounts (mctsSearchRun env2 cfg2 rand2 s2 r2).1 := by
  subst henv hcfg hrand hs hr
  exact ⟨rfl, rfl⟩

/-- Witness for C5 at a concrete environment, configuration and seed. -/
theorem claim_C5_witness :
    mctsSearch envChain cfgSmall testRand 0 0 =
      mctsSearch envChain cfgSmall testRand 0 0 ∧
    rootVisitCounts (mctsSearchRun envChain cfgSmall testRand 0 0).1 =
      rootVisitCounts (mctsSearchRun envChain cfgSmall testRand 0 0).1 :=
  claim_C5_deterministic envChain envChain cfgSmall cfgSmall testRand testRand
    0 0 0 0 rfl rfl rfl rfl rfl

/-- C7 counterexample: `cfgBad` violates all four constraints of spec §7
(non-positive `rollouts` and `max_depth`, `gamma` outside `(0, 1]`, negative
`c_uct`), yet construction accepts it without any error. -/
theorem claim_C7_counterexample :
    (cfgBad.rollouts ≤ 0 ∧ cfgBad.max_depth ≤ 0 ∧
      ¬(0 < cfgBad.gamma ∧ cfgBad.gamma ≤ 1) ∧ cfgBad.c_uct < 0) ∧
    (MCTS.init envChain cfgBad (none : Option ℕ)
      (none : Option Unit) 0).isOk = true := by
  constructor
  · refine ⟨by decide, by decide, ?_, by decide⟩
    rintro ⟨_, h2⟩
    norm_num [cfgBad] at h2
  · rfl

/-- C7 amended: neither `MCTSConfig` nor `MCTS.__init__` performs any
validation; construction succeeds on every configuration, including
non-positive `rollouts` or `max_depth`, `gamma` outside `(0, 1]`, and
negative `c_uct`, simply storing the fields. -/
theorem claim_C7_amended_no_validation {S A R H : Type} (mdp : MDP S A R)
    (cfg : MCTSConfig) (rng : Option R) (heuristic : Option H) (seed0 : R) :
    MCTS.init mdp cfg rng heuristic seed0 =
      Except.ok ⟨mdp, cfg, rng.getD seed0, heuristic⟩ := rfl

/-- C8: if after all rollouts the root node has no children, `search` falls
back to the first action enumerable at the root state, and fails with
`RuntimeError` if no action is enumerable there. -/
theorem claim_C8_no_children_fallback {S A R : Type} [DecidableEq A]
    (env : MDP S A R) (cfg : MCTSConfig) (rand : Rand R) (s : S) (r : R)
    (h : ((mctsSearchRun env cfg rand s r).1).children = []) :
    (env.actions s = [] →
      mctsSearch env cfg rand s r =
        Except.error ("MCTS on terminal state")) ∧
    (∀ a l, env.actions s = a :: l →
      mctsSearch env cfg rand s r = Except.ok a) := by
  unfold mctsSearchRun at h
  have hse := search_of_children_empty env cfg rand (mctsScore cfg) s r h
  constructor
  · intro hacts
    unfold mctsSearch
    rw [hse, hacts]
  · intro a l hacts
    unfold mctsSearch
    rw [hse, hacts]

/-- Witness for C8: budget 0 leaves the root childless and `search` returns
the first enumerable action. -/
theorem claim_C8_witness :
    ((mctsSearchRun envChain cfgZero testRand 0 0).1).children = [] ∧
    mctsSearch envChain cfgZero testRand 0 0 = Except.ok 0 := by
  have h : ((mctsSearchRun envChain cfgZero testRand 0 0).1).children = [] := rfl
  exact ⟨h,
    (claim_C8_no_children_fallback envChain cfgZero testRand 0 0 h).2 0 [] rfl⟩

/-- C1: in the selection phase, when choosing among a node's existing
children: if some child has `visits == 0`, the first such child in encounter
order is selected (its UCT score is never consulted); otherwise every child
`c` scores `c.q + c_uct * sqrt(ln N / n_c)` with `N` the parent's visit count
and `n_c` the child's, the highest-scoring child is selected, and ties break
in favor of the first child encountered. -/
theorem claim_C1_select_uct {S A : Type} (c_uct : ℝ) (node : Node S A) :
    (node.children = [] →
      select_uct (uctScore c_uct node.visits) node.children = none) ∧
    (∀ pre a c post, node.children = pre ++ (a, c) :: post → c.visits = 0 →
      (∀ p ∈ pre, p.2.visits ≠ 0) →
      select_uct (uctScore c_uct node.visits) node.children = some a) ∧
    ((∀ p ∈ node.children, p.2.visits ≠ 0) → node.children ≠ [] →
      ∃ pre a c post, node.children = pre ++ (a, c) :: post ∧
        select_uct (uctScore c_uct node.visits) node.children = some a ∧
        (∀ p ∈ pre,
          uctScore c_uct node.visits p.2 < uctScore c_uct node.visits c) ∧
        (∀ p ∈ node.children,
          uctScore c_uct node.visits p.2 ≤ uctScore c_uct node.visits c)) := by
  refine ⟨?_, ?_, ?_⟩
  · intro h
    rw [h]
    rfl
  · intro pre a c post heq hc hpre
    rw [heq]
    exact select_uct_unvisited _ pre a c post hpre hc
  · intro h0 hne
    obtain ⟨pre, p, post, heq, hres, hpre, hle⟩ :=
      select_uct_max (uctScore c_uct node.visits) node.children hne h0
    exact ⟨pre, p.1, p.2, post, by rw [heq], hres, hpre, hle⟩

/-- Witness for C1: a parent with a visited first child and an unvisited
second child selects the unvisited one. -/
theorem claim_C1_witness :
    (Node.mk 2 ([] : List (ℕ × Node ℕ ℕ)) 0 0).visits = 0 ∧
    select_uct
      (uctScore 1
        (Node.mk 0 [(0, Node.mk 1 [] 1 0), (1, Node.mk 2 [] 0 0)] 2 0).visits)
      (Node.mk 0 [(0, Node.mk 1 [] 1 0), (1, Node.mk 2 [] 0 0)] 2 0).children =
      some 1 := by
  refine ⟨rfl, ?_⟩
  exact (claim_C1_select_uct 1
      (Node.mk 0 [(0, Node.mk 1 [] 1 0), (1, Node.mk 2 [] 0 0)] 2 0)).2.1
    [(0, Node.mk 1 [] 1 0)] 1 (Node.mk 2 [] 0 0) [] rfl rfl (by decide)

/-- C4: the rollout phase started from state `s` at depth `depth` returns `0`
immediately when no action is available at `s` (first conjunct) or when `s`
is terminal or the depth budget is exhausted (second conjunct); its
accumulator satisfies `total += discount * reward; discount *= gamma` with
`discount` starting at 1, i.e. the run is affine in `(total, discount)`
(third conjunct) and one non-terminal step contributes the sampled reward
plus `gamma` times the remaining rollout value (fourth conjunct).  The
rollout's type `ℚ × R` creates no tree nodes. -/
theorem claim_C4_rollout {S A R : Type} (env : MDP S A R) (cfg : MCTSConfig)
    (rand : Rand R) (s : S) (depth : ℤ) (r : R) :
    (env.actions s = [] → rollout env cfg rand s depth r = (0, r)) ∧
    (env.is_terminal s = true ∨ cfg.max_depth ≤ depth →
      rollout env cfg rand s depth r = (0, r)) ∧
    (∀ total discount : ℚ,
      rollout_aux env cfg rand s depth total discount r =
        (total + discount * (rollout env cfg rand s depth r).1,
          (rollout env cfg rand s depth r).2)) ∧
    (env.is_terminal s = false → depth < cfg.max_depth →
      ∀ h : env.actions s ≠ [],
      rollout env cfg rand s depth r =
        ((env.sample s (rand.choice (env.actions s) h r).1
            (rand.choice (env.actions s) h r).2).1.2 +
          cfg.gamma * (rollout env cfg rand
            (env.sample s (rand.choice (env.actions s) h r).1
              (rand.choice (env.actions s) h r).2).1.1 (depth + 1)
            (env.sample s (rand.choice (env.actions s) h r).1
              (rand.choice (env.actions s) h r).2).2).1,
          (rollout env cfg rand
            (env.sample s (rand.choice (env.actions s) h r).1
              (rand.choice (env.actions s) h r).2).1.1 (depth + 1)
            (env.sample s (rand.choice (env.actions s) h r).1
              (rand.choice (env.actions s) h r).2).2).2)) := by
  refine ⟨?_, ?_, ?_, ?_⟩
  · intro hacts
    unfold rollout
    exact rollout_aux_no_actions env cfg rand s depth 0 1 r hacts
  · intro h
    unfold rollout
    refine rollout_aux_stuck env cfg rand s depth 0 1 r ?_
    rintro ⟨h1, h2⟩
    rcases h with h | h
    · rw [h] at h1
      cases h1
    · omega
  · intro total discount
    unfold rollout
    exact rollout_aux_affine env cfg rand (cfg.max_depth - depth).toNat s
      depth r le_rfl total discount
  · intro hterm hdepth h
    unfold rollout
    conv_lhs => rw [rollout_aux]
    rw [dif_pos ⟨hterm, hdepth⟩, dif_neg h]
    rw [rollout_aux_affine env cfg rand (cfg.max_depth - (depth + 1)).toNat _
      (depth + 1) _ le_rfl]
    simp only [Prod.mk.injEq]
    constructor
    · ring
    · trivial

/-- Witness for C4: no-action and terminal starting states both yield return
0 with the random source untouched. -/
theorem claim_C4_witness :
    envNoActs.actions 5 = [] ∧
    rollout envNoActs cfgSmall testRand 5 0 0 = (0, 0) ∧
    envTermActs.is_terminal 5 = true ∧
    rollout envTermActs cfgSmall testRand 5 0 0 = (0, 0) :=
  ⟨rfl, (claim_C4_rollout envNoActs cfgSmall testRand 5 0 0).1 rfl, rfl,
    (claim_C4_rollout envTermActs cfgSmall testRand 5 0 0).2.1 (Or.inl rfl)⟩

/-- C6 counterexample: `search` on a terminal root state whose action list is
nonempty returns that list's first action instead of aborting with an error,
contradicting the claim that a terminal root always produces an error. -/
theorem claim_C6_counterexample :
    envTermActs.is_terminal 0 = true ∧
    mctsSearch envTermActs cfgSmall testRand 0 0 = Except.ok 3 := by
  have hch : ((searchRun envTermActs cfgSmall testRand
      (mctsScore cfgSmall) 0 0).1).children = [] := by
    unfold searchRun
    exact searchLoop_children_stuck envTermActs cfgSmall testRand
      (mctsScore cfgSmall) 0 (Or.inl rfl) _ _ _ rfl rfl
  refine ⟨rfl, ?_⟩
  unfold mctsSearch
  rw [search_of_children_empty envTermActs cfgSmall testRand
    (mctsScore cfgSmall) 0 0 hch]
  rfl

/-- C6 amended: `search` on a root whose enumerable-action list is empty
(terminal or not) aborts with `RuntimeError("MCTS on terminal state")`; a
terminal root that still enumerates actions instead returns the first
enumerated action without error. -/
theorem claim_C6_empty_actions_error {S A R : Type} [DecidableEq A]
    (env : MDP S A R) (cfg : MCTSConfig) (rand : Rand R) (s : S) (r : R)
    (hacts : env.actions s = []) :
    mctsSearch env cfg rand s r =
      Except.error ("MCTS on terminal state") := by
  have hch : ((searchRun env cfg rand (mctsScore cfg) s r).1).children = [] := by
    unfold searchRun
    exact searchLoop_children_stuck env cfg rand (mctsScore cfg) s
      (Or.inr hacts) _ _ _ rfl rfl
  unfold mctsSearch
  rw [search_of_children_empty env cfg rand (mctsScore cfg) s r hch, hacts]

/-- Witness for C6 amended: the no-action environment makes `search` fail
loudly. -/
theorem claim_C6_witness :
    envNoActs.actions 0 = [] ∧
    mctsSearch envNoActs cfgSmall testRand 0 0 =
      Except.error ("MCTS on terminal state") :=
  ⟨rfl, claim_C6_empty_actions_error envNoActs cfgSmall testRand 0 0 rfl⟩

/-- C9: after every prefix of the rollout loop the search tree satisfies the
invariant that every vertex with at least one child has visit count at least
1; the selection recursion descends (and hence evaluates `_select_uct`,
applying `math.log` to the parent's visit count) only at nodes of the current
tree with a nonempty children list, so by the invariant such a parent always
has `visits ≥ 1` and the logarithm is never taken at 0. -/
theorem claim_C9_selection_parent_visited {S A R : Type} [DecidableEq A]
    (env : MDP S A R) (cfg : MCTSConfig) (rand : Rand R) (s : S) (r : R)
    (n : ℕ) :
    Node.Inv ((searchLoop env cfg rand (mctsScore cfg) n
      (Node.mk s [] 0 0) r).1) ∧
    (∀ t : Node S A, Node.Inv t → t.children ≠ [] → 1 ≤ t.visits) := by
  constructor
  · refine searchLoop_inv env cfg rand (mctsScore cfg) n _ r ?_
    exact Node.Inv.intro _ _ _ _ (fun h => absurd rfl h) (by simp)
  · intro t ht hch
    exact ht.pos hch

/-- C10: for every integer number of arms at least 1, `select_arm` returns an
integer arm index between 0 and `n_arms - 1`. -/
theorem claim_C10_select_arm_range {R : Type} (rand : Rand R) (n_arms : ℤ)
    (r : R) (h : 1 ≤ n_arms) :
    0 ≤ (select_arm n_arms rand r).1 ∧
    (select_arm n_arms rand r).1 ≤ n_arms - 1 := by
  unfold select_arm randint
  have hpos : 0 < (n_arms - 0).toNat := by omega
  have hlt : (rand.next r).1 % (n_arms - 0).toNat < (n_arms - 0).toNat :=
    Nat.mod_lt _ hpos
  constructor
  · simp only []
    omega
  · simp only []
    omega

/-- Witness for C10 at 3 arms. -/
theorem claim_C10_witness :
    (1 : ℤ) ≤ 3 ∧ 0 ≤ (select_arm 3 testRand 7).1 ∧
    (select_arm 3 testRand 7).1 ≤ 3 - 1 :=
  ⟨by decide, claim_C10_select_arm_range testRand 3 7 (by decide)⟩

end RLPlanner
